import Mathlib

/-!
Verification of the monaco template engine (src/monaco/parser.py) against its
natural-language specification.

The development shallowly embeds the Python module: the `Token` class, the
regex-driven lexer built in `Parser.__init__` / `Parser.get_token` /
`Parser.tokenize`, and the recursive evaluator `Parser.parse` / `Parser.eval`.
Python exceptions are modelled with `Except`; the mutable `self.env` dictionary
is modelled by a store of dictionaries indexed by references, so that the
distinction between the caller's dict object and the parser's private copy
(made by `env.copy()` on line 104 of parser.py) is observable.  Machine-level
caveats: Python regex character classes are modelled over their ASCII
behaviour, and `repr` of strings is modelled without escape processing; no
claim depends on either corner.
-/

namespace Monaco

/-- Python runtime values that can appear in the substitution environment:
integers, booleans, strings and ordered sequences (lists). -/
inductive Value where
  | int (n : Int)
  | bool (b : Bool)
  | str (s : String)
  | list (l : List Value)

/-- Python `==` on the values that can be dictionary keys.  Python's
`True == 1` and `False == 0` numeric coercion is included.  Lists are
unhashable in Python and can never be dict keys, so comparison against a
list key is constantly false. -/
def pyEq : Value → Value → Bool
  | .int a, .int b => a == b
  | .int a, .bool b => a == (if b then (1 : Int) else 0)
  | .bool a, .int b => (if a then (1 : Int) else 0) == b
  | .bool a, .bool b => a == b
  | .str a, .str b => a == b
  | _, _ => false

/-- Python truthiness `bool(v)` for the embedded values. -/
def pyTruthy : Value → Bool
  | .int n => n != 0
  | .bool b => b
  | .str s => s != ""
  | .list l => !l.isEmpty

mutual
/-- Python `repr` of a value, used for elements when a list is stringified
(string escaping is not modelled). -/
def pyRepr : Value → String
  | .int n => toString n
  | .bool b => if b then "True" else "False"
  | .str s => "'" ++ s ++ "'"
  | .list l => "[" ++ pyReprList l ++ "]"

/-- Comma-separated reprs of the elements of a Python list. -/
def pyReprList : List Value → String
  | [] => ""
  | [v] => pyRepr v
  | v :: rest => pyRepr v ++ ", " ++ pyReprList rest
end

/-- Python `str(v)`. -/
def pyStr : Value → String
  | .int n => toString n
  | .bool b => if b then "True" else "False"
  | .str s => s
  | .list l => "[" ++ pyReprList l ++ "]"

/-- A Python dictionary, as its insertion-ordered entry list. -/
abbrev PyDict := List (Value × Value)

/-- Python `d.get(k)` / `d[k]` lookup (first entry whose key equals `k`). -/
def dictGet : PyDict → Value → Option Value
  | [], _ => none
  | (k', v) :: rest, k => if pyEq k' k then some v else dictGet rest k

/-- Python `d[k] = v`: update the first entry whose key equals `k` (keeping
the stored key object), else append a new entry. -/
def dictSet : PyDict → Value → Value → PyDict
  | [], k, v => [(k, v)]
  | (k', v') :: rest, k, v =>
      if pyEq k' k then (k', v) :: rest else (k', v') :: dictSet rest k v

/-- Python `del d[k]`: remove the first entry whose key equals `k`; `none`
models the `KeyError` raised when the key is absent. -/
def dictDel : PyDict → Value → Option PyDict
  | [], _ => none
  | (k', v') :: rest, k =>
      if pyEq k' k then some rest else (dictDel rest k).map ((k', v') :: ·)

/-- A heap of dictionary objects.  Slot 0 holds the caller's dict, slot 1 the
parser's private `self.env` created by `env.copy()`; keeping both slots makes
the claim that the caller's dict is never mutated stateable. -/
abbrev Store := List PyDict

/-- Dereference a dict object in the store. -/
def storeGet (st : Store) (r : Nat) : PyDict := st.getD r []

/-- Overwrite a dict object in the store. -/
def storeSet (st : Store) (r : Nat) (d : PyDict) : Store := st.set r d

/-- `self.env.get(k)` where `self.env` is the dict at reference `r`. -/
def envGet (st : Store) (r : Nat) (k : Value) : Option Value :=
  dictGet (storeGet st r) k

/-- `self.env[k] = v` on the dict at reference `r`. -/
def envSet (st : Store) (r : Nat) (k v : Value) : Store :=
  storeSet st r (dictSet (storeGet st r) k v)

/-- `del self.env[k]` on the dict at reference `r`; `none` is the
`KeyError` case. -/
def envDel (st : Store) (r : Nat) (k : Value) : Option Store :=
  (dictDel (storeGet st r) k).map (storeSet st r)

/-- The Python exceptions the module can raise, plus fuel exhaustion of the
embedding (which never fires on the runs studied here). -/
inductive Err where
  | outOfFuel
  | lexError (pos : Nat)
  | indexError
  | keyError (k : String)
  | valueError
  | typeError
  | unboundLocal
deriving DecidableEq, Repr

/-- Token kinds, one per lexer rule of `Parser.__init__`. -/
inductive TokType where
  | NEWLINE | SPACE | COMMENT | NUMBER | TRUE | FALSE
  | EQUAL | PLUS | MINUS | MULT | LP | RP | LB | RB
  | DEFINE | FOR | UNDEF | IF | IFNOT | ELSE | END
  | VAR | IDENTIFIER
deriving DecidableEq, Repr

/-- One lexical token: its kind and the raw matched text (class `Token`). -/
structure Token where
  type : TokType
  val : String
deriving DecidableEq, Repr

/-- Strip surrounding whitespace, as Python `int()` does before parsing. -/
def isPySpaceChar (c : Char) : Bool :=
  c == ' ' || c == '\t' || c == '\n' || c == '\r' || c == '\x0b' || c == '\x0c'

/-- Decimal digit value accumulation for `int()`. -/
def digitsVal : List Char → Nat → Option Nat
  | [], acc => some acc
  | c :: cs, acc =>
      if c.isDigit then digitsVal cs (acc * 10 + (c.toNat - '0'.toNat))
      else none

/-- Python `int(s)`: strip whitespace, optional sign, then decimal digits;
`ValueError` otherwise (numeric-literal underscores are not modelled). -/
def pyInt (s : String) : Except Err Int :=
  let cs := (s.data.dropWhile isPySpaceChar).reverse.dropWhile isPySpaceChar |>.reverse
  match cs with
  | [] => .error .valueError
  | '-' :: ds =>
      match ds, digitsVal ds 0 with
      | _ :: _, some n => .ok (-(n : Int))
      | _, _ => .error .valueError
  | '+' :: ds =>
      match ds, digitsVal ds 0 with
      | _ :: _, some n => .ok (n : Int)
      | _, _ => .error .valueError
  | ds =>
      match digitsVal ds 0 with
      | some n => .ok (n : Int)
      | none => .error .valueError

/-- `Token.value()`: `NUMBER` casts via `int()` (which can raise), `TRUE` and
`FALSE` give booleans, everything else keeps the raw text. -/
def Token.value (t : Token) : Except Err Value :=
  match t.type with
  | .NUMBER => (pyInt t.val).map .int
  | .TRUE => .ok (.bool true)
  | .FALSE => .ok (.bool false)
  | _ => .ok (.str t.val)

/-! ## Lexer

`Parser.__init__` joins the rules into one alternation; `re` picks the first
alternative that matches at the cursor, each alternative matching greedily.
The classes `\s`, `\d`, `\w` are modelled over ASCII; `.` matches any
character except `'\n'` (Python's default, no DOTALL). -/

/-- Characters of the class `[\r\n]`. -/
def isNLChar (c : Char) : Bool := c == '\r' || c == '\n'

/-- ASCII reading of the class `\w` (also the `IDENTIFIER` class
`[a-zA-Z_0-9]`). -/
def isWordChar (c : Char) : Bool := c.isAlphanum || c == '_'

/-- The regex `.`: any character except a newline. -/
def isDotChar (c : Char) : Bool := c != '\n'

/-- Length of the maximal run of characters satisfying `p` at the start. -/
def runLen (p : Char → Bool) (cs : List Char) : Nat := (cs.takeWhile p).length

/-- Matcher for the reserved-word rules `..kw::`: the two unescaped dots
match any two non-newline characters, then the literal keyword text. -/
def dotKw (kw : List Char) (cs : List Char) : Bool :=
  match cs with
  | c0 :: c1 :: rest => isDotChar c0 && isDotChar c1 && kw.isPrefixOf rest
  | _ => false

/-- Matcher for the generic rule `..\w+::`: two non-newline characters, a
nonempty maximal word-character run, then `::`.  Backtracking cannot help
this pattern (a word character can never match `:`), so the maximal run is
exact. -/
def varRule (cs : List Char) : Option Nat :=
  match cs with
  | c0 :: c1 :: rest =>
      if isDotChar c0 && isDotChar c1 then
        let w := runLen isWordChar rest
        if w ≠ 0 && ([':', ':'].isPrefixOf (rest.drop w)) then some (2 + w + 2)
        else none
      else none
  | _ => none

/-- Try all lexer rules in declaration order at the start of `cs`; return the
kind and matched length of the first rule that matches, as `re` does for the
joined alternation. -/
def ruleMatch (cs : List Char) : Option (TokType × Nat) :=
  if runLen isNLChar cs ≠ 0 then some (.NEWLINE, runLen isNLChar cs)
  else if runLen isPySpaceChar cs ≠ 0 then some (.SPACE, runLen isPySpaceChar cs)
  else if runLen (· == '#') cs ≠ 0 then some (.COMMENT, runLen (· == '#') cs)
  else if runLen Char.isDigit cs ≠ 0 then some (.NUMBER, runLen Char.isDigit cs)
  else if ['T','r','u','e'].isPrefixOf cs || ['t','r','u','e'].isPrefixOf cs then
    some (.TRUE, 4)
  else if ['F','a','l','s','e'].isPrefixOf cs || ['f','a','l','s','e'].isPrefixOf cs then
    some (.FALSE, 5)
  else if cs.head? = some '=' then some (.EQUAL, 1)
  else if cs.head? = some '+' then some (.PLUS, 1)
  else if cs.head? = some '-' then some (.MINUS, 1)
  else if cs.head? = some '*' then some (.MULT, 1)
  else if cs.head? = some '(' then some (.LP, 1)
  else if cs.head? = some ')' then some (.RP, 1)
  else if cs.head? = some '[' then some (.LB, 1)
  else if cs.head? = some ']' then some (.RB, 1)
  else if dotKw ['d','e','f','i','n','e',':',':'] cs then some (.DEFINE, 10)
  else if dotKw ['f','o','r',':',':'] cs then some (.FOR, 7)
  else if dotKw ['u','n','d','e','f',':',':'] cs then some (.UNDEF, 9)
  else if dotKw ['i','f',':',':'] cs then some (.IF, 6)
  else if dotKw ['i','f','n','o','t',':',':'] cs then some (.IFNOT, 9)
  else if dotKw ['e','l','s','e',':',':'] cs then some (.ELSE, 8)
  else if dotKw ['e','n','d',':',':'] cs then some (.END, 7)
  else
    match varRule cs with
    | some n => some (.VAR, n)
    | none =>
        if runLen isWordChar cs ≠ 0 then some (.IDENTIFIER, runLen isWordChar cs)
        else none

/-- The scanning loop of `Parser.tokenize` / `Parser.get_token`: repeatedly
match at the cursor and emit a token, or stop with the number of characters
consumed before the position where no rule matches (`ParserError` is raised
there, with `self.pos` resting at that offset). -/
def tokGo : Nat → List Char → Except Nat (List Token)
  | _, [] => .ok []
  | 0, _ :: _ => .error 0
  | Nat.succ f, c :: cs =>
      match ruleMatch (c :: cs) with
      | none => .error 0
      | some (tt, n) =>
          match tokGo f ((c :: cs).drop n) with
          | .ok ts => .ok (⟨tt, ⟨(c :: cs).take n⟩⟩ :: ts)
          | .error p => .error (n + p)

/-- `Parser.tokenize` over a character buffer.  Every rule consumes at least
one character, so the fuel `length + 1` is never exhausted. -/
def tokenizeChars (cs : List Char) : Except Nat (List Token) :=
  tokGo (cs.length + 1) cs

/-- `Parser.tokenize` over a string buffer, with the failure offset wrapped
as a lexing error. -/
def tokenizeStr (s : String) : Except Err (List Token) :=
  match tokenizeChars s.data with
  | .ok ts => .ok ts
  | .error p => .error (.lexError p)

/-! ## Evaluator

`Parser.parse` walks the token list with an explicit position `pos`.  The
inner `while` loops of each directive handler are factored into helpers that
scan the suffix `tokens.drop pos` and report how many tokens they passed
over; out-of-range accesses `tokens[pos]` model Python's `IndexError`. -/

/-- Python list indexing `tokens[i]` including negative wrap-around
(`tokens[pos - 1]` is evaluated with `pos = 0` in the whitespace branch). -/
def pyGetTok (ts : List Token) (i : Int) : Option Token :=
  if 0 ≤ i then ts.get? i.toNat
  else if 0 ≤ i + ts.length then ts.get? (i + ts.length).toNat
  else none

/-- Scan `while tokens[pos].type != "NEWLINE"`: the tokens passed over and
the offset of the first `NEWLINE`; `none` models running past the end. -/
def collectToNL : List Token → Option (List Token × Nat)
  | [] => none
  | t :: ts =>
      if t.type = .NEWLINE then some ([], 0)
      else (collectToNL ts).map fun (c, k) => (t :: c, k + 1)

/-- Scan `while tokens[pos].type != "END"` of the `for` handler: the body
tokens and the offset of the first `END` (no depth tracking in the source). -/
def collectToEnd : List Token → Option (List Token × Nat)
  | [] => none
  | t :: ts =>
      if t.type = .END then some ([], 0)
      else (collectToEnd ts).map fun (c, k) => (t :: c, k + 1)

/-- The block-extraction loop of the `if`/`ifnot` handler: `level` counts
nested `IF` tokens (only `IF`: a nested `ifnot` does not raise the level),
`sel` is true once a depth-1 `ELSE` switched to the else-branch, and a
nested `END` is appended and followed by a double position bump (the
`pos += 1` inside the branch plus the one at the loop bottom), skipping the
following token.  Returns both branch bodies and the offset of the
terminating depth-1 `END`. -/
def extractIf : List Token → Nat → Bool → List Token → List Token →
    Option (List Token × List Token × Nat)
  | [], _, _, _, _ => none
  | t :: ts, level, sel, b0, b1 =>
      match t.type with
      | .IF =>
          let (b0', b1') := if sel then (b0, b1 ++ [t]) else (b0 ++ [t], b1)
          (extractIf ts (level + 1) sel b0' b1').map fun (a, b, k) => (a, b, k + 1)
      | .ELSE =>
          if level = 1 then
            (extractIf ts level true b0 b1).map fun (a, b, k) => (a, b, k + 1)
          else
            let (b0', b1') := if sel then (b0, b1 ++ [t]) else (b0 ++ [t], b1)
            (extractIf ts level sel b0' b1').map fun (a, b, k) => (a, b, k + 1)
      | .END =>
          if level ≤ 1 then some (b0, b1, 0)
          else
            let (b0', b1') := if sel then (b0, b1 ++ [t]) else (b0 ++ [t], b1)
            match ts with
            | [] => none
            | _ :: ts2 =>
                (extractIf ts2 (level - 1) sel b0' b1').map fun (a, b, k) => (a, b, k + 2)
      | _ =>
          let (b0', b1') := if sel then (b0, b1 ++ [t]) else (b0 ++ [t], b1)
          (extractIf ts level sel b0' b1').map fun (a, b, k) => (a, b, k + 1)

/-- The scanning loop of the `define` handler, started one past the `DEFINE`
token: skip spaces, take the first non-space token's typed value as the key,
the second as the value, and break on the third (reporting its offset).
Running past the end is an `IndexError`; a bad `NUMBER` cast propagates
`ValueError`. -/
def defineScan : List Token → Option Value → Option Value → Except Err (Value × Value × Nat)
  | [], _, _ => .error .indexError
  | t :: ts, key?, val? =>
      if t.type = .SPACE then
        (defineScan ts key? val?).map fun (k, v, n) => (k, v, n + 1)
      else
        match key?, val? with
        | none, v? =>
            match t.value with
            | .error e => .error e
            | .ok kv => (defineScan ts (some kv) v?).map fun (k, v, n) => (k, v, n + 1)
        | some k, none =>
            match t.value with
            | .error e => .error e
            | .ok vv => (defineScan ts (some k) (some vv)).map fun (k, v, n) => (k, v, n + 1)
        | some k, some v => .ok (k, v, 0)

/-- The key-search loop of the `undef` handler: the raw text of the first
`IDENTIFIER` token at or after the current position, with its offset. -/
def findIdent : List Token → Except Err (String × Nat)
  | [] => .error .indexError
  | t :: ts =>
      if t.type = .IDENTIFIER then .ok (t.val, 0)
      else (findIdent ts).map fun (s, n) => (s, n + 1)

/-- Python `s.split(" ")`: split at every single space, keeping empty
pieces. -/
def splitSp : List Char → List (List Char)
  | [] => [[]]
  | c :: cs =>
      if c = ' ' then [] :: splitSp cs
      else
        match splitSp cs with
        | p :: ps => (c :: p) :: ps
        | [] => [[c]]

/-- Python `range(a, b)` as a list. -/
def rangeInts (a b : Int) : List Int :=
  (List.range (b - a).toNat).map fun k => a + (k : Int)

/-- Python sequence lookup `l[i]` with negative wrap-around: a nonnegative
index reads directly, a negative index `-(m+1)` reads position
`len - (m+1)` when that is in range; `none` is the out-of-range case. -/
def pySeqGet {A : Type} (l : List A) (i : Int) : Option A :=
  match i with
  | .ofNat n => l.get? n
  | .negSucc m => if m + 1 ≤ l.length then l.get? (l.length - (m + 1)) else none

/-- Python subscript `v[i]` as used by the indexed-reference branch: lists
and strings are sequences (with negative wrap-around), integers and booleans
raise `TypeError`, out-of-range raises `IndexError`. -/
def pyIndexValue (v : Value) (i : Int) : Except Err Value :=
  match v with
  | .list l =>
      match pySeqGet l i with
      | some e => .ok e
      | none => .error .indexError
  | .str s =>
      match pySeqGet s.data i with
      | some c => .ok (.str ⟨[c]⟩)
      | none => .error .indexError
  | _ => .error .typeError

/-- Python slice `key[2:-2]`, stripping the directive delimiters. -/
def sliceDelims (s : String) : String :=
  ⟨(s.data.drop 2).take (s.data.length - 4)⟩

/-- `Parser.__handle_cond`: drop spaces, then decide truthiness from the
first token alone (`tokens[0]` raising `IndexError` when nothing is left).
Boolean literals yield their value; an identifier is looked up in the
environment with `None` (falsy) as default; anything else uses the typed
value's truthiness. -/
def handleCond (cond : List Token) (env : PyDict) : Except Err Bool :=
  match cond.filter (fun t => t.type ≠ .SPACE) with
  | [] => .error .indexError
  | t :: _ =>
      if t.type = .TRUE ∨ t.type = .FALSE then .ok (t.type = .TRUE)
      else if t.type = .IDENTIFIER then
        .ok (match dictGet env (.str t.val) with
             | some v => pyTruthy v
             | none => false)
      else
        match t.value with
        | .error e => .error e
        | .ok v => .ok (pyTruthy v)

/-- The `for` iteration `for i in range(...): result += self.parse(body, iter_id=i)`,
parameterised by the recursive evaluation of the body so the fuel recursion
stays structural. -/
def runFor (ev : Int → Store → Store × Except Err String) :
    List Int → Store → String → Store × Except Err String
  | [], st, acc => (st, .ok acc)
  | i :: is, st, acc =>
      match ev i st with
      | (st', .ok s) => runFor ev is st' (acc ++ s)
      | (st', .error e) => (st', .error e)

/-- The main loop of `Parser.parse`.  Arguments: fuel (one unit per loop
iteration or nested call), the token list, `iter_id`, the position, the
accumulated `result`, the last value assigned to the function-local `idx`
(None until the indexed-reference branch runs, mirroring the unbound local
read in the bare `..it::` branch), the store of dict objects and the
reference of `self.env` in it. -/
def parseLoop : Nat → List Token → Option Int → Nat → String → Option String →
    Store → Nat → Store × Except Err String
  | 0 => fun _ _ _ _ _ st _ => (st, .error .outOfFuel)
  | Nat.succ fl => fun ts it pos res idxv st ref =>
    match ts.get? pos with
    | none => (st, .ok res)
    | some t =>
      match t.type with
      | .COMMENT =>
          match collectToNL (ts.drop (pos + 1)) with
          | none => (st, .error .indexError)
          | some (_, k) => parseLoop fl ts it (pos + 1 + k) res idxv st ref
      | .SPACE =>
          match pyGetTok ts ((pos : Int) - 1) with
          | none => (st, .error .indexError)
          | some pv =>
              if pv.type = .NEWLINE then parseLoop fl ts it (pos + 1) res idxv st ref
              else parseLoop fl ts it (pos + 1) (res ++ t.val) idxv st ref
      | .NEWLINE =>
          match pyGetTok ts ((pos : Int) - 1) with
          | none => (st, .error .indexError)
          | some pv =>
              if pv.type = .NEWLINE then parseLoop fl ts it (pos + 1) res idxv st ref
              else parseLoop fl ts it (pos + 1) (res ++ t.val) idxv st ref
      | .FOR =>
          match collectToNL (ts.drop (pos + 2)) with
          | none => (st, .error .indexError)
          | some (rl, k) =>
              match parseLoop fl rl none 0 "" none st ref with
              | (st1, .error e) => (st1, .error e)
              | (st1, .ok rs) =>
                  match splitSp rs.data with
                  | [sa, sb] =>
                      let pos2 := pos + 2 + k + 1
                      match collectToEnd (ts.drop pos2) with
                      | none => (st1, .error .indexError)
                      | some (body, k2) =>
                          match pyInt ⟨sa⟩ with
                          | .error e => (st1, .error e)
                          | .ok a =>
                              match pyInt ⟨sb⟩ with
                              | .error e => (st1, .error e)
                              | .ok b =>
                                  match runFor
                                      (fun i stx => parseLoop fl body (some i) 0 "" none stx ref)
                                      (rangeInts a b) st1 "" with
                                  | (st2, .error e) => (st2, .error e)
                                  | (st2, .ok acc) =>
                                      parseLoop fl ts it (pos2 + k2 + 1) (res ++ acc) idxv st2 ref
                  | _ => (st1, .error .valueError)
      | .IF =>
          match collectToNL (ts.drop (pos + 1)) with
          | none => (st, .error .indexError)
          | some (cond, k) =>
              let pos2 := pos + 1 + k + 1
              match extractIf (ts.drop pos2) 1 false [] [] with
              | none => (st, .error .indexError)
              | some (b0, b1, k2) =>
                  match handleCond cond (storeGet st ref) with
                  | .error e => (st, .error e)
                  | .ok c =>
                      match parseLoop fl (if c then b0 else b1) none 0 "" none st ref with
                      | (st1, .error e) => (st1, .error e)
                      | (st1, .ok s) =>
                          parseLoop fl ts it (pos2 + k2 + 1)
                            (if s ≠ "" then res ++ s else res) idxv st1 ref
      | .IFNOT =>
          match collectToNL (ts.drop (pos + 1)) with
          | none => (st, .error .indexError)
          | some (cond, k) =>
              let pos2 := pos + 1 + k + 1
              match extractIf (ts.drop pos2) 1 false [] [] with
              | none => (st, .error .indexError)
              | some (b0, b1, k2) =>
                  match handleCond cond (storeGet st ref) with
                  | .error e => (st, .error e)
                  | .ok c =>
                      match parseLoop fl (if !c then b0 else b1) none 0 "" none st ref with
                      | (st1, .error e) => (st1, .error e)
                      | (st1, .ok s) =>
                          parseLoop fl ts it (pos2 + k2 + 1)
                            (if s ≠ "" then res ++ s else res) idxv st1 ref
      | .DEFINE =>
          match defineScan (ts.drop (pos + 1)) none none with
          | .error e => (st, .error e)
          | .ok (k, v, c) =>
              parseLoop fl ts it (pos + 1 + c + 2) res idxv (envSet st ref k v) ref
      | .UNDEF =>
          match findIdent (ts.drop pos) with
          | .error e => (st, .error e)
          | .ok (key, off) =>
              match envDel st ref (.str key) with
              | none => (st, .error (.keyError key))
              | some st1 =>
                  match collectToNL (ts.drop (pos + off)) with
                  | none => (st1, .error .indexError)
                  | some (_, k) => parseLoop fl ts it (pos + off + k + 1) res idxv st1 ref
      | .VAR =>
          let key := t.val
          let plain : Store × Except Err String :=
            if key = "..it::" then
              match it with
              | none =>
                  match idxv with
                  | none => (st, .error .unboundLocal)
                  | some s => parseLoop fl ts it (pos + 1) (res ++ s) idxv st ref
              | some i => parseLoop fl ts it (pos + 1) (res ++ toString i) idxv st ref
            else
              parseLoop fl ts it (pos + 1)
                (res ++ pyStr ((envGet st ref (.str (sliceDelims key))).getD (.str key)))
                idxv st ref
          if ts.length > 3 then
            match ts.get? (pos + 1) with
            | none => (st, .error .indexError)
            | some t1 =>
                if t1.type = .LB then
                  match ts.get? (pos + 3) with
                  | none => (st, .error .indexError)
                  | some t3 =>
                      if t3.type = .RB then
                        match ts.get? (pos + 2) with
                        | none => (st, .error .indexError)
                        | some t2 =>
                            let idx := t2.val
                            if idx = "..it::" then
                              match it with
                              | none =>
                                  parseLoop fl ts it (pos + 4) (res ++ idx) (some idx) st ref
                              | some i =>
                                  parseLoop fl ts it (pos + 4) (res ++ toString i) (some idx) st ref
                            else
                              let v := (envGet st ref (.str (sliceDelims key))).getD (.str key)
                              match pyInt idx with
                              | .error e => (st, .error e)
                              | .ok n =>
                                  match pyIndexValue v n with
                                  | .error e => (st, .error e)
                                  | .ok ev =>
                                      parseLoop fl ts it (pos + 4) (res ++ pyStr ev) (some idx) st ref
                      else plain
                else plain
          else plain
      | _ => parseLoop fl ts it (pos + 1) (res ++ t.val) idxv st ref

/-- One invocation of `Parser.parse` on a token list: position 0, empty
result, no local `idx` bound yet. -/
def parseCall (fl : Nat) (ts : List Token) (it : Option Int) (st : Store) (ref : Nat) :
    Store × Except Err String :=
  parseLoop fl ts it 0 "" none st ref

/-- `Parser(buf, env)` followed by `.eval()`: the constructor copies the
caller's dict (`self.env = env.copy()`), giving a store whose slot 0 is the
caller's object and slot 1 the parser's private copy; `eval` tokenizes once
and parses.  The fuel `tokens + 2` covers every run studied here, since
nested calls always receive strictly shorter token lists. -/
def evalTemplate (buf : String) (env : PyDict) : Store × Except Err String :=
  let st : Store := [env, env]
  match tokenizeStr buf with
  | .error e => (st, .error e)
  | .ok ts => parseCall (ts.length + 2) ts none st 1

/-! ## Specification-side definitions -/

/-- Concatenation of the raw texts of a token list, at character level. -/
def tokensChars (ts : List Token) : List Char :=
  (ts.map fun t => t.val.data).flatten

/-- Inductive witness that a token list is exactly what greedy first-match
scanning produces from `cs`, leaving `rest` unconsumed: each token is the
first matching rule at its position, tokens cover the consumed characters
in order with no gaps and no overlaps. -/
inductive LexesTo : List Token → List Char → List Char → Prop
  | nil (cs : List Char) : LexesTo [] cs cs
  | cons (tt : TokType) (n : Nat) (cs rest : List Char) (ts : List Token) :
      ruleMatch cs = some (tt, n) →
      LexesTo ts (cs.drop n) rest →
      LexesTo (⟨tt, ⟨cs.take n⟩⟩ :: ts) cs rest

/-- Token kinds that the evaluator copies verbatim (the final `else` branch
of `Parser.parse`), plus the whitespace kinds. -/
def litType : TokType → Bool
  | .NUMBER | .TRUE | .FALSE | .EQUAL | .PLUS | .MINUS | .MULT
  | .LP | .RP | .LB | .RB | .IDENTIFIER | .SPACE | .NEWLINE => true
  | _ => false

/-- Whitespace token kinds (handled by the normalization branch). -/
def wsType : TokType → Bool
  | .SPACE | .NEWLINE => true
  | _ => false

/-- No whitespace token is preceded (in the evaluator's `tokens[pos - 1]`
sense, with Python's wrap-around at position 0) by a `NEWLINE` token, so the
whitespace-normalization branch never discards anything. -/
def noWsAfterNL (ts : List Token) : Bool :=
  (List.range ts.length).all fun pos =>
    match ts.get? pos with
    | none => true
    | some t =>
        !(wsType t.type) ||
          (match pyGetTok ts ((pos : Int) - 1) with
           | none => true
           | some pv => pv.type ≠ .NEWLINE)

/-- Is a directive marker (two literal dots, one or more word characters,
two colons — the glossary's definition) present at the head? -/
def markerAt (cs : List Char) : Bool :=
  match cs with
  | '.' :: '.' :: rest =>
      runLen isWordChar rest ≠ 0 &&
        [':', ':'].isPrefixOf (rest.drop (runLen isWordChar rest))
  | _ => false

/-- Does the text contain a directive marker anywhere? -/
def hasMarker : List Char → Bool
  | [] => false
  | c :: cs => markerAt (c :: cs) || hasMarker cs

/-- Well-formedness of a dictionary as Python maintains it: no two entries
have equal keys. -/
def dictWF (d : PyDict) : Prop :=
  d.Pairwise fun a b => pyEq a.1 b.1 = false

/-! ## Auxiliary lemmas -/

/-- Appending the empty string on the left is the identity. -/
theorem empty_append_str : ∀ s : String, "" ++ s = s
  | ⟨_⟩ => rfl

/-- String append is concatenation of the character data. -/
theorem str_append_data : ∀ a b : String, (a ++ b).data = a.data ++ b.data
  | ⟨_⟩, ⟨_⟩ => rfl

/-- Python `==` is right-euclidean on the embedded values: two keys equal to
the same query are equal to each other. -/
theorem pyEq_right_euclid : ∀ a b q : Value,
    pyEq a q = true → pyEq b q = true → pyEq a b = true := by
  intro a b q
  cases a <;> cases b <;> cases q <;>
    simp_all [pyEq] <;> split_ifs at * <;> simp_all <;> omega

/-- Updating a key makes it immediately readable (for keys equal to
themselves under Python `==`, which holds for every hashable key). -/
theorem dictGet_dictSet_self (d : PyDict) (k v : Value) (hk : pyEq k k = true) :
    dictGet (dictSet d k v) k = some v := by
  induction d with
  | nil => simp [dictSet, dictGet, hk]
  | cons e rest ih =>
      obtain ⟨k', v'⟩ := e
      by_cases hp : pyEq k' k = true
      · simp [dictSet, hp, dictGet]
      · simp [dictSet, hp, dictGet, ih]

/-- A present key can be deleted. -/
theorem dictDel_of_get (d : PyDict) (k : Value) (v : Value)
    (h : dictGet d k = some v) : ∃ d', dictDel d k = some d' := by
  induction d with
  | nil => simp [dictGet] at h
  | cons e rest ih =>
      obtain ⟨k', v'⟩ := e
      by_cases hp : pyEq k' k = true
      · exact ⟨rest, by simp [dictDel, hp]⟩
      · simp [dictGet, hp] at h
        obtain ⟨d', hd'⟩ := ih h
        exact ⟨(k', v') :: d', by simp [dictDel, hp, hd']⟩

/-- An absent key cannot be deleted (`del` raises `KeyError`). -/
theorem dictDel_of_get_none (d : PyDict) (k : Value)
    (h : dictGet d k = none) : dictDel d k = none := by
  induction d with
  | nil => simp [dictDel]
  | cons e rest ih =>
      obtain ⟨k', v'⟩ := e
      by_cases hp : pyEq k' k = true
      · simp [dictGet, hp] at h
      · simp [dictGet, hp] at h
        simp [dictDel, hp, ih h]

/-- If every stored key differs from `k'` and `k'` equals the query, then
the dictionary does not answer the query. -/
theorem dictGet_none_of_all_ne (d : PyDict) (k' k : Value)
    (hk : pyEq k' k = true)
    (hall : ∀ e ∈ d, pyEq k' e.1 = false) : dictGet d k = none := by
  induction d with
  | nil => rfl
  | cons e rest ih =>
      obtain ⟨k0, v0⟩ := e
      have h0 : pyEq k' k0 = false := hall (k0, v0) (by simp)
      have hne : pyEq k0 k = false := by
        by_contra hc
        simp only [Bool.not_eq_false] at hc
        have := pyEq_right_euclid k' k0 k hk hc
        simp [this] at h0
      simp only [dictGet, hne]
      exact ih fun e he => hall e (by simp [he])

/-- Deleting a key from a well-formed dictionary removes it: a subsequent
lookup misses. -/
theorem dictGet_dictDel_none (d : PyDict) (k : Value) (d' : PyDict)
    (hwf : dictWF d) (hdel : dictDel d k = some d') : dictGet d' k = none := by
  induction d generalizing d' with
  | nil => simp [dictDel] at hdel
  | cons e rest ih =>
      obtain ⟨k0, v0⟩ := e
      rw [dictWF, List.pairwise_cons] at hwf
      by_cases hp : pyEq k0 k = true
      · simp only [dictDel, hp, if_pos, Option.some.injEq] at hdel
        subst hdel
        exact dictGet_none_of_all_ne rest k0 k hp hwf.1
      · rw [dictDel, if_neg hp] at hdel
        rcases hd : dictDel rest k with _ | d''
        · simp [hd] at hdel
        · rw [hd] at hdel
          simp only [Option.map_some', Option.some.injEq] at hdel
          subst hdel
          rw [dictGet, if_neg hp]
          exact ih d'' hwf.2 hd

/-! ## Lexer coverage lemmas -/

/-- The generic directive rule consumes at least one character. -/
theorem varRule_pos (cs : List Char) (n : Nat) (h : varRule cs = some n) : 0 < n := by
  rcases cs with _ | ⟨c0, cs⟩
  · simp [varRule] at h
  rcases cs with _ | ⟨c1, rest⟩
  · simp [varRule] at h
  simp only [varRule] at h
  split_ifs at h
  simp only [Option.some.injEq] at h
  omega

/-- Runs never exceed the remaining buffer. -/
theorem runLen_le (p : Char → Bool) (cs : List Char) : runLen p cs ≤ cs.length :=
  (List.takeWhile_prefix p).length_le

/-- Length bound for the generic directive rule. -/
theorem varRule_le (cs : List Char) (n : Nat) (h : varRule cs = some n) :
    n ≤ cs.length := by
  rcases cs with _ | ⟨c0, cs⟩
  · simp [varRule] at h
  rcases cs with _ | ⟨c1, rest⟩
  · simp [varRule] at h
  simp only [varRule] at h
  split_ifs at h with h1 h2
  simp only [Option.some.injEq] at h
  subst h
  simp only [Bool.and_eq_true, ne_eq, decide_eq_true_eq] at h2
  have hw : runLen isWordChar rest ≤ rest.length := runLen_le _ _
  have hp : ([':', ':'] : List Char).length ≤ (rest.drop (runLen isWordChar rest)).length :=
    (List.isPrefixOf_iff_prefix.mp h2.2).length_le
  simp only [List.length_cons, List.length_nil, List.length_drop] at hp ⊢
  omega

/-- Peeling one prioritized rule off an if-chain of rule attempts. -/
theorem ifPeel (P : Nat → Prop) {c : Prop} [Decidable c] {x : TokType × Nat}
    {rest : Option (TokType × Nat)} {tt : TokType} {n : Nat}
    (h : (if c then some x else rest) = some (tt, n))
    (hx : c → P x.2) (hr : rest = some (tt, n) → P n) : P n := by
  split at h
  · cases h
    exact hx (by assumption)
  · exact hr h

/-- Prefix matching bounds the buffer length from below. -/
theorem isPrefixOf_length_le {l1 l2 : List Char} (h : l1.isPrefixOf l2 = true) :
    l1.length ≤ l2.length :=
  (List.isPrefixOf_iff_prefix.mp h).length_le

/-- The reserved-word matcher needs keyword length plus the two dot
positions. -/
theorem dotKw_length (kw cs : List Char) (h : dotKw kw cs = true) :
    kw.length + 2 ≤ cs.length := by
  rcases cs with _ | ⟨c0, cs⟩
  · simp [dotKw] at h
  rcases cs with _ | ⟨c1, rest⟩
  · simp [dotKw] at h
  simp only [dotKw, Bool.and_eq_true] at h
  have := isPrefixOf_length_le h.2
  simp only [List.length_cons]
  omega

/-- A matched head character bounds the length from below. -/
theorem headSome_length {cs : List Char} {a : Char} (h : cs.head? = some a) :
    1 ≤ cs.length := by
  cases cs <;> simp_all

/-- Every lexer rule consumes at least one and at most the remaining number
of characters when it matches. -/
theorem ruleMatch_bounds (cs : List Char) (tt : TokType) (n : Nat)
    (h : ruleMatch cs = some (tt, n)) : 0 < n ∧ n ≤ cs.length := by
  have hrl : ∀ p, runLen p cs ≤ cs.length := fun p => runLen_le p cs
  unfold ruleMatch at h
  refine ifPeel (fun k => 0 < k ∧ k ≤ cs.length) h (fun hc => ⟨Nat.pos_of_ne_zero hc, hrl _⟩) fun h => ?_
  refine ifPeel (fun k => 0 < k ∧ k ≤ cs.length) h (fun hc => ⟨Nat.pos_of_ne_zero hc, hrl _⟩) fun h => ?_
  refine ifPeel (fun k => 0 < k ∧ k ≤ cs.length) h (fun hc => ⟨Nat.pos_of_ne_zero hc, hrl _⟩) fun h => ?_
  refine ifPeel (fun k => 0 < k ∧ k ≤ cs.length) h (fun hc => ⟨Nat.pos_of_ne_zero hc, hrl _⟩) fun h => ?_
  refine ifPeel (fun k => 0 < k ∧ k ≤ cs.length) h (fun hc => ⟨by omega, ?_⟩) fun h => ?_
  · have hc' := hc
    simp only [Bool.or_eq_true] at hc'
    rcases hc' with hp | hp <;> simpa using isPrefixOf_length_le hp
  refine ifPeel (fun k => 0 < k ∧ k ≤ cs.length) h (fun hc => ⟨by omega, ?_⟩) fun h => ?_
  · have hc' := hc
    simp only [Bool.or_eq_true] at hc'
    rcases hc' with hp | hp <;> simpa using isPrefixOf_length_le hp
  refine ifPeel (fun k => 0 < k ∧ k ≤ cs.length) h (fun hc => ⟨by omega, headSome_length hc⟩) fun h => ?_
  refine ifPeel (fun k => 0 < k ∧ k ≤ cs.length) h (fun hc => ⟨by omega, headSome_length hc⟩) fun h => ?_
  refine ifPeel (fun k => 0 < k ∧ k ≤ cs.length) h (fun hc => ⟨by omega, headSome_length hc⟩) fun h => ?_
  refine ifPeel (fun k => 0 < k ∧ k ≤ cs.length) h (fun hc => ⟨by omega, headSome_length hc⟩) fun h => ?_
  refine ifPeel (fun k => 0 < k ∧ k ≤ cs.length) h (fun hc => ⟨by omega, headSome_length hc⟩) fun h => ?_
  refine ifPeel (fun k => 0 < k ∧ k ≤ cs.length) h (fun hc => ⟨by omega, headSome_length hc⟩) fun h => ?_
  refine ifPeel (fun k => 0 < k ∧ k ≤ cs.length) h (fun hc => ⟨by omega, headSome_length hc⟩) fun h => ?_
  refine ifPeel (fun k => 0 < k ∧ k ≤ cs.length) h (fun hc => ⟨by omega, headSome_length hc⟩) fun h => ?_
  refine ifPeel (fun k => 0 < k ∧ k ≤ cs.length) h (fun hc => ⟨by omega, by have := dotKw_length _ _ (by simpa using hc); simpa using this⟩) fun h => ?_
  refine ifPeel (fun k => 0 < k ∧ k ≤ cs.length) h (fun hc => ⟨by omega, by have := dotKw_length _ _ (by simpa using hc); simpa using this⟩) fun h => ?_
  refine ifPeel (fun k => 0 < k ∧ k ≤ cs.length) h (fun hc => ⟨by omega, by have := dotKw_length _ _ (by simpa using hc); simpa using this⟩) fun h => ?_
  refine ifPeel (fun k => 0 < k ∧ k ≤ cs.length) h (fun hc => ⟨by omega, by have := dotKw_length _ _ (by simpa using hc); simpa using this⟩) fun h => ?_
  refine ifPeel (fun k => 0 < k ∧ k ≤ cs.length) h (fun hc => ⟨by omega, by have := dotKw_length _ _ (by simpa using hc); simpa using this⟩) fun h => ?_
  refine ifPeel (fun k => 0 < k ∧ k ≤ cs.length) h (fun hc => ⟨by omega, by have := dotKw_length _ _ (by simpa using hc); simpa using this⟩) fun h => ?_
  refine ifPeel (fun k => 0 < k ∧ k ≤ cs.length) h (fun hc => ⟨by omega, by have := dotKw_length _ _ (by simpa using hc); simpa using this⟩) fun h => ?_
  rcases hv : varRule cs with _ | m
  · simp only [hv] at h
    split_ifs at h with h9
    cases h
    exact ⟨Nat.pos_of_ne_zero h9, hrl _⟩
  · simp only [hv] at h
    cases h
    exact ⟨varRule_pos cs _ hv, varRule_le cs _ hv⟩

/-- Unfolding of token text concatenation over a produced token. -/
theorem tokensChars_cons (tt : TokType) (s : String) (ts : List Token) :
    tokensChars (⟨tt, s⟩ :: ts) = s.data ++ tokensChars ts := by
  simp [tokensChars]

/-- Greedy first-match scanning is total: with enough fuel it either covers
the whole buffer by tokens, or stops at an offset where no rule matches,
with the tokens so far covering exactly the consumed prefix. -/
theorem tokGoSpec : ∀ (fl : Nat) (cs : List Char), cs.length ≤ fl →
    (∃ ts, tokGo fl cs = .ok ts ∧ LexesTo ts cs [] ∧ tokensChars ts = cs) ∨
    (∃ p ts, tokGo fl cs = .error p ∧ LexesTo ts cs (cs.drop p) ∧
      tokensChars ts = cs.take p ∧ ruleMatch (cs.drop p) = none ∧ p ≤ cs.length) := by
  intro fl
  induction fl with
  | zero =>
      intro cs hle
      have : cs = [] := List.eq_nil_of_length_eq_zero (Nat.le_zero.mp hle)
      subst this
      exact .inl ⟨[], rfl, .nil [], rfl⟩
  | succ fl ih =>
      intro cs hle
      rcases cs with _ | ⟨c, cs'⟩
      · exact .inl ⟨[], rfl, .nil [], rfl⟩
      rcases hr : ruleMatch (c :: cs') with _ | ⟨tt, n⟩
      · refine .inr ⟨0, [], ?_, .nil _, rfl, by simpa using hr, by omega⟩
        simp [tokGo, hr]
      · obtain ⟨hn, hnle⟩ : 0 < n ∧ n ≤ (c :: cs').length := ruleMatch_bounds _ _ _ hr
        have hlecs : (c :: cs').length ≤ fl + 1 := hle
        have hld : ((c :: cs').drop n).length = (c :: cs').length - n := List.length_drop n _
        have hlen : ((c :: cs').drop n).length ≤ fl := by omega
        have hdd : ∀ p', ((c :: cs').drop n).drop p' = (c :: cs').drop (n + p') := fun p' => by
          rw [List.drop_drop, Nat.add_comm]
        rcases ih ((c :: cs').drop n) hlen with ⟨ts, hok, hlex, htext⟩ |
          ⟨p, ts, herr, hlex, htext, hnm, hple⟩
        · refine .inl ⟨⟨tt, ⟨(c :: cs').take n⟩⟩ :: ts, ?_, ?_, ?_⟩
          · simp only [tokGo, hr, hok]
          · exact .cons tt n _ _ ts hr hlex
          · rw [tokensChars_cons, htext]
            exact List.take_append_drop n (c :: cs')
        · refine .inr ⟨n + p, ⟨tt, ⟨(c :: cs').take n⟩⟩ :: ts, ?_, ?_, ?_, ?_, ?_⟩
          · simp only [tokGo, hr, herr]
          · rw [← hdd p]
            exact .cons tt n _ _ ts hr hlex
          · rw [tokensChars_cons, htext, List.take_add]
          · rw [← hdd p]
            exact hnm
          · omega

/-! ## Claim C4 -/

/-- C4: tokenization either produces an ordered token sequence covering the
buffer exactly — the concatenation of the tokens' raw texts equals the
buffer, with no gaps and no overlaps (witnessed by `LexesTo`) — or fails
with a lexing error whose offset is the first scan position at which no rule
matches, the tokens before it covering exactly the consumed prefix. -/
theorem claim4_tokenize_total (cs : List Char) :
    (∃ ts, tokenizeChars cs = .ok ts ∧ LexesTo ts cs [] ∧ tokensChars ts = cs) ∨
    (∃ p ts, tokenizeChars cs = .error p ∧ LexesTo ts cs (cs.drop p) ∧
      tokensChars ts = cs.take p ∧ ruleMatch (cs.drop p) = none ∧ p ≤ cs.length) :=
  tokGoSpec (cs.length + 1) cs (by omega)

/-! ## Claim C1 -/

/-- C1 counterexample: evaluating the spec's own loop example does not yield
`A0A1A2`; the body's newline token is emitted on every iteration, so the
code produces `A0\nA1\nA2\n`. -/
theorem claim1_counterexample :
    (evalTemplate "..for:: 0 3\nA..it::\n..end::" []).2 = .ok "A0\nA1\nA2\n" ∧
    "A0\nA1\nA2\n" ≠ "A0A1A2" :=
  ⟨rfl, by decide⟩

/-- C1 (amended): for every environment, the for directive iterates the
half-open range, substitutes the loop index, and concatenates the bodies in
order — each iteration including the body's trailing newline, so the example
yields `A0\nA1\nA2\n` — and performs no iteration when start ≥ end. -/
theorem claim1_for_loop (env : PyDict) :
    (evalTemplate "..for:: 0 3\nA..it::\n..end::" env).2 = .ok "A0\nA1\nA2\n" ∧
    (evalTemplate "..for:: 3 3\nA..it::\n..end::" env).2 = .ok "" :=
  ⟨rfl, rfl⟩

/-! ## Claim C2 -/

/-- C2: definitions escape their block.  For every initial environment, a
`..define:: x 5` inside a closed `..if::` block (and a `..define:: y 7`
inside a closed `..for::` block) is still bound after the block's `..end::`,
so the later plain reference renders the defined value, and the binding is
present in the final environment. -/
theorem claim2_define_persists (env : PyDict) :
    (evalTemplate "..if:: true\n..define:: x 5\n..end::\n..x:: " env).2 = .ok "\n5 " ∧
    dictGet (storeGet (evalTemplate "..if:: true\n..define:: x 5\n..end::\n..x:: " env).1 1)
      (.str "x") = some (.int 5) ∧
    (evalTemplate "..for:: 0 1\n..define:: y 7\n..end::\n..y:: " env).2 = .ok "\n7 " ∧
    dictGet (storeGet (evalTemplate "..for:: 0 1\n..define:: y 7\n..end::\n..y:: " env).1 1)
      (.str "y") = some (.int 7) := by
  have hgx : dictGet (dictSet env (.str "x") (.int 5)) (.str "x") = some (.int 5) :=
    dictGet_dictSet_self env _ _ rfl
  have hgy : dictGet (dictSet env (.str "y") (.int 7)) (.str "y") = some (.int 7) :=
    dictGet_dictSet_self env _ _ rfl
  have h1 : evalTemplate "..if:: true\n..define:: x 5\n..end::\n..x:: " env =
      ([env, dictSet env (.str "x") (.int 5)],
        .ok ("\n" ++
          pyStr ((dictGet (dictSet env (.str "x") (.int 5)) (.str "x")).getD (.str "..x::")) ++
          " ")) := rfl
  have h2 : evalTemplate "..for:: 0 1\n..define:: y 7\n..end::\n..y:: " env =
      ([env, dictSet env (.str "y") (.int 7)],
        .ok ("\n" ++
          pyStr ((dictGet (dictSet env (.str "y") (.int 7)) (.str "y")).getD (.str "..y::")) ++
          " ")) := rfl
  refine ⟨?_, ?_, ?_, ?_⟩
  · rw [h1, hgx]
    rfl
  · rw [h1]
    exact hgx
  · rw [h2, hgy]
    rfl
  · rw [h2]
    exact hgy

/-! ## Claim C3 -/

/-- C3 counterexample: the nested-conditional example of the spec does not
evaluate to exactly `Y`; the selected inner else-branch carries its trailing
newline, so the code produces `Y\n`. -/
theorem claim3_counterexample :
    (evalTemplate "..if:: true\n..if:: false\nX\n..else::\nY\n..end::\n..end::" []).2 =
      .ok "Y\n" ∧
    "Y\n" ≠ "Y" :=
  ⟨rfl, by decide⟩

/-- C3 (amended): block extraction tracks nesting depth — an `else` at depth
greater than 1 is ordinary body text and a nested `end` does not terminate
the outer block — so for every environment the example selects the inner
else-branch, evaluating to `Y\n` (with the branch's trailing newline). -/
theorem claim3_nested_if (env : PyDict) :
    (evalTemplate "..if:: true\n..if:: false\nX\n..else::\nY\n..end::\n..end::" env).2 =
      .ok "Y\n" :=
  rfl

/-! ## Claim C5 -/

/-- Writing one store slot leaves every other slot unchanged. -/
theorem storeGet_storeSet_ne (st : Store) (r : Nat) (d : PyDict) (j : Nat)
    (h : j ≠ r) : storeGet (storeSet st r d) j = storeGet st j := by
  induction st generalizing r j with
  | nil => rfl
  | cons a st' ih =>
      cases r with
      | zero =>
          cases j with
          | zero => omega
          | succ j' => rfl
      | succ r' =>
          cases j with
          | zero => rfl
          | succ j' => exact ih r' j' (by omega)

/-- The for-iteration helper preserves any slot its body evaluation
preserves. -/
theorem runFor_store_ne (ev : Int → Store → Store × Except Err String) (j : Nat)
    (hev : ∀ i stx, storeGet (ev i stx).1 j = storeGet stx j) :
    ∀ (is : List Int) (st : Store) (acc : String),
      storeGet (runFor ev is st acc).1 j = storeGet st j := by
  intro is
  induction is with
  | nil => intro st acc; rfl
  | cons i rest ih =>
      intro st acc
      have hthis := hev i st
      simp only [runFor]
      rcases hev' : ev i st with ⟨st', r⟩
      rw [hev'] at hthis
      cases r with
      | ok s => exact (ih st' (acc ++ s)).trans hthis
      | error e => exact hthis

/-- The evaluator only ever writes the dict object `self.env` refers to:
every other slot of the store — in particular the caller's dict — is
untouched by `Parser.parse`. -/
theorem parseLoop_store_ne : ∀ (fl : Nat) (ts : List Token) (it : Option Int)
    (pos : Nat) (res : String) (idxv : Option String) (st : Store) (ref j : Nat),
    j ≠ ref →
    storeGet (parseLoop fl ts it pos res idxv st ref).1 j = storeGet st j := by
  intro fl
  induction fl with
  | zero => intro ts it pos res idxv st ref j hj; rfl
  | succ fl ih =>
      intro ts it pos res idxv st ref j hj
      have hset : ∀ (st : Store) (k v : Value),
          storeGet (envSet st ref k v) j = storeGet st j := fun st k v =>
        storeGet_storeSet_ne _ _ _ _ hj
      have hdel : ∀ (st st' : Store) (k : Value), envDel st ref k = some st' →
          storeGet st' j = storeGet st j := by
        intro st st' k h
        unfold envDel at h
        rcases hdc : dictDel (storeGet st ref) k with _ | d
        · rw [hdc] at h
          cases h
        · rw [hdc] at h
          simp only [Option.map_some', Option.some.injEq] at h
          subst h
          exact storeGet_storeSet_ne _ _ _ _ hj
      have hfst : ∀ {x : Store × Except Err String} {st2 : Store} {r : Except Err String},
          x = (st2, r) → x.1 = st2 := fun h => by rw [h]
      simp only [parseLoop]
      split
      · rfl
      split
      -- COMMENT
      · split
        · rfl
        · exact ih _ _ _ _ _ _ _ _ hj
      -- SPACE
      · split
        · rfl
        · split
          · exact ih _ _ _ _ _ _ _ _ hj
          · exact ih _ _ _ _ _ _ _ _ hj
      -- NEWLINE
      · split
        · rfl
        · split
          · exact ih _ _ _ _ _ _ _ _ hj
          · exact ih _ _ _ _ _ _ _ _ hj
      -- FOR
      · split
        · rfl
        · split
          -- range evaluation errored
          · rename_i st1 e heq1
            show storeGet st1 j = storeGet st j
            rw [← hfst heq1]
            exact ih _ _ _ _ _ _ _ _ hj
          -- range evaluation ok
          · rename_i st1 rs heq1
            have hst1 : storeGet st1 j = storeGet st j := by
              rw [← hfst heq1]
              exact ih _ _ _ _ _ _ _ _ hj
            split
            · split
              · exact hst1
              · split
                · exact hst1
                · split
                  · exact hst1
                  · split
                    -- loop body errored
                    · rename_i a b st2 e heq2
                      show storeGet st2 j = storeGet st j
                      rw [← hfst heq2]
                      exact (runFor_store_ne _ j
                        (fun i stx => ih _ _ _ _ _ stx ref j hj) _ st1 "").trans hst1
                    -- loop ran to completion
                    · rename_i a b st2 acc heq2
                      have hst2 : storeGet st2 j = storeGet st1 j := by
                        rw [← hfst heq2]
                        exact runFor_store_ne _ j
                          (fun i stx => ih _ _ _ _ _ stx ref j hj) _ st1 ""
                      exact (ih _ _ _ _ _ _ _ _ hj).trans (hst2.trans hst1)
            · exact hst1
      -- IF
      · split
        · rfl
        · split
          · rfl
          · split
            · rfl
            · split
              · rename_i st1 e heq1
                show storeGet st1 j = storeGet st j
                rw [← hfst heq1]
                exact ih _ _ _ _ _ _ _ _ hj
              · rename_i st1 s0 heq1
                have hst1 : storeGet st1 j = storeGet st j := by
                  rw [← hfst heq1]
                  exact ih _ _ _ _ _ _ _ _ hj
                exact (ih _ _ _ _ _ _ _ _ hj).trans hst1
      -- IFNOT
      · split
        · rfl
        · split
          · rfl
          · split
            · rfl
            · split
              · rename_i st1 e heq1
                show storeGet st1 j = storeGet st j
                rw [← hfst heq1]
                exact ih _ _ _ _ _ _ _ _ hj
              · rename_i st1 s0 heq1
                have hst1 : storeGet st1 j = storeGet st j := by
                  rw [← hfst heq1]
                  exact ih _ _ _ _ _ _ _ _ hj
                exact (ih _ _ _ _ _ _ _ _ hj).trans hst1
      -- DEFINE
      · split
        · rfl
        · exact (ih _ _ _ _ _ _ _ _ hj).trans (hset _ _ _)
      -- UNDEF
      · split
        · rfl
        · split
          · rfl
          · rename_i st1 heq1
            have hst1 : storeGet st1 j = storeGet st j := hdel _ _ _ heq1
            split
            · exact hst1
            · exact (ih _ _ _ _ _ _ _ _ hj).trans hst1
      -- VAR
      · repeat' split
        all_goals first
          | rfl
          | exact ih _ _ _ _ _ _ _ _ hj
      -- every other token kind copies its text
      · exact ih _ _ _ _ _ _ _ _ hj

/-- C5: a complete evaluation never mutates the caller's mapping — the
constructor works on `env.copy()` (store slot 1), and every environment
mutation of the evaluator targets that copy, so the caller's dict (slot 0)
holds exactly the same bindings after evaluation, for every buffer and
every environment, including evaluations that end in an error. -/
theorem claim5_caller_env_preserved (buf : String) (env : PyDict) :
    storeGet (evalTemplate buf env).1 0 = env := by
  unfold evalTemplate
  rcases htok : tokenizeStr buf with e | ts
  · rfl
  show storeGet (parseLoop (ts.length + 2) ts none 0 "" none [env, env] 1).1 0 = env
  rw [parseLoop_store_ne (ts.length + 2) ts none 0 "" none [env, env] 1 0 (by omega)]
  rfl

/-! ## Claim C6 -/

/-- C6: `..undef::` of an absent key always raises the key error, while
`..undef::` of a present key (in a well-formed dictionary) removes it, so a
subsequent plain reference renders the literal directive text `..x::`. -/
theorem claim6_undef (env : PyDict) :
    (dictWF env → ∀ v, dictGet env (.str "x") = some v →
      (evalTemplate "..undef:: x\n..x:: " env).2 = .ok "..x:: " ∧
      dictGet (storeGet (evalTemplate "..undef:: x\n..x:: " env).1 1) (.str "x") = none) ∧
    (dictGet env (.str "x") = none →
      (evalTemplate "..undef:: x\n..x:: " env).2 = .error (.keyError "x")) := by
  have h1 : evalTemplate "..undef:: x\n..x:: " env =
      match envDel [env, env] 1 (.str "x") with
      | none => ([env, env], .error (.keyError "x"))
      | some st1 =>
          parseLoop 7
            [⟨.UNDEF, "..undef::"⟩, ⟨.SPACE, " "⟩, ⟨.IDENTIFIER, "x"⟩,
             ⟨.NEWLINE, "\n"⟩, ⟨.VAR, "..x::"⟩, ⟨.SPACE, " "⟩]
            none 4 "" none st1 1 := rfl
  constructor
  · intro hwf v hv
    obtain ⟨d', hdel⟩ := dictDel_of_get env _ v hv
    have hnone : dictGet d' (.str "x") = none := dictGet_dictDel_none env _ d' hwf hdel
    have henvdel : envDel [env, env] 1 (.str "x") = some [env, d'] := by
      show (dictDel env (.str "x")).map _ = _
      rw [hdel]
      rfl
    rw [henvdel] at h1
    have h3 : parseLoop 7
        [⟨.UNDEF, "..undef::"⟩, ⟨.SPACE, " "⟩, ⟨.IDENTIFIER, "x"⟩,
         ⟨.NEWLINE, "\n"⟩, ⟨.VAR, "..x::"⟩, ⟨.SPACE, " "⟩]
        none 4 "" none [env, d'] 1 =
        ([env, d'],
          .ok ("" ++ pyStr ((dictGet d' (.str "x")).getD (.str "..x::")) ++ " ")) := rfl
    constructor
    · rw [h1]
      show (parseLoop 7 _ none 4 "" none [env, d'] 1).2 = _
      rw [h3, hnone]
      rfl
    · rw [h1]
      show dictGet (storeGet (parseLoop 7 _ none 4 "" none [env, d'] 1).1 1) (.str "x") = none
      rw [h3]
      exact hnone
  · intro h0
    have hdel0 : dictDel env (.str "x") = none := dictDel_of_get_none env _ h0
    have henvdel0 : envDel [env, env] 1 (.str "x") = none := by
      show (dictDel env (.str "x")).map _ = _
      rw [hdel0]
      rfl
    rw [henvdel0] at h1
    rw [h1]

/-- C6 witness: both cases of the claim discharged at concrete inputs — an
environment binding x to 1, and the empty environment. -/
theorem claim6_undef_witness :
    ((evalTemplate "..undef:: x\n..x:: " [(.str "x", .int 1)]).2 = .ok "..x:: " ∧
      dictGet (storeGet (evalTemplate "..undef:: x\n..x:: " [(.str "x", .int 1)]).1 1)
        (.str "x") = none) ∧
    (evalTemplate "..undef:: x\n..x:: " []).2 = .error (.keyError "x") :=
  ⟨(claim6_undef [(.str "x", .int 1)]).1 (by simp [dictWF]) (.int 1) rfl,
   (claim6_undef []).2 rfl⟩

/-! ## Claim C7 -/

/-- Python subscripting a list with a nonnegative index: the element when in
range, `IndexError` past the end. -/
theorem pyIndexValue_natCast (l : List Value) (i : Nat) :
    pyIndexValue (.list l) ((i : Nat) : Int) =
      if h : i < l.length then .ok (l.get ⟨i, h⟩) else .error .indexError := by
  show (match l.get? i with
        | some e => Except.ok e
        | none => Except.error Err.indexError) = _
  by_cases hlt : i < l.length
  · rw [List.get?_eq_get hlt, dif_pos hlt]
  · rw [List.get?_eq_none.mpr (by omega), dif_neg hlt]

/-- C7: an indexed reference on a name bound to a sequence appends the
stringified element at the bracketed position — `..name::[2]` over
`[10,20,30]` yields `30` — and for every nonnegative index at or past the
end of the sequence the evaluation fails with the index error instead of
producing output, for every environment binding the name to a sequence and
every index string. -/
theorem claim7_indexed_ref :
    (evalTemplate "..name::[2]" [(.str "name", .list [.int 10, .int 20, .int 30])]).2 =
      .ok "30" ∧
    ∀ (s : String) (i : Nat) (l : List Value) (env : PyDict),
      pyInt s = .ok (i : Int) →
      dictGet env (.str "name") = some (.list l) →
      parseCall 6 [⟨.VAR, "..name::"⟩, ⟨.LB, "["⟩, ⟨.NUMBER, s⟩, ⟨.RB, "]"⟩]
          none [env, env] 1 =
        ([env, env],
          if h : i < l.length then .ok (pyStr (l.get ⟨i, h⟩))
          else .error .indexError) := by
  refine ⟨rfl, ?_⟩
  intro s i l env hpi henv
  have hne : ¬(s = "..it::") := by
    intro hs
    rw [hs] at hpi
    exact Except.noConfusion hpi
  have h1 : parseCall 6 [⟨.VAR, "..name::"⟩, ⟨.LB, "["⟩, ⟨.NUMBER, s⟩, ⟨.RB, "]"⟩]
      none [env, env] 1 =
      if s = "..it::" then
        parseLoop 5 [⟨.VAR, "..name::"⟩, ⟨.LB, "["⟩, ⟨.NUMBER, s⟩, ⟨.RB, "]"⟩]
          none 4 ("" ++ s) (some s) [env, env] 1
      else
        match pyInt s with
        | .error e => ([env, env], .error e)
        | .ok n =>
            match pyIndexValue ((dictGet env (.str "name")).getD (.str "..name::")) n with
            | .error e => ([env, env], .error e)
            | .ok ev =>
                parseLoop 5 [⟨.VAR, "..name::"⟩, ⟨.LB, "["⟩, ⟨.NUMBER, s⟩, ⟨.RB, "]"⟩]
                  none 4 ("" ++ pyStr ev) (some s) [env, env] 1 := rfl
  rw [if_neg hne, hpi, henv] at h1
  have h2 : parseCall 6 [⟨.VAR, "..name::"⟩, ⟨.LB, "["⟩, ⟨.NUMBER, s⟩, ⟨.RB, "]"⟩]
      none [env, env] 1 =
      match pyIndexValue (Value.list l) ((i : Nat) : Int) with
      | .error e => ([env, env], .error e)
      | .ok ev =>
          parseLoop 5 [⟨.VAR, "..name::"⟩, ⟨.LB, "["⟩, ⟨.NUMBER, s⟩, ⟨.RB, "]"⟩]
            none 4 ("" ++ pyStr ev) (some s) [env, env] 1 := h1
  rw [pyIndexValue_natCast] at h2
  rw [h2]
  by_cases hlt : i < l.length
  · rw [dif_pos hlt, dif_pos hlt]
    show parseLoop 5 [⟨.VAR, "..name::"⟩, ⟨.LB, "["⟩, ⟨.NUMBER, s⟩, ⟨.RB, "]"⟩]
        none 4 ("" ++ pyStr (l.get ⟨i, hlt⟩)) (some s) [env, env] 1 = _
    have h3 : parseLoop 5 [⟨.VAR, "..name::"⟩, ⟨.LB, "["⟩, ⟨.NUMBER, s⟩, ⟨.RB, "]"⟩]
        none 4 ("" ++ pyStr (l.get ⟨i, hlt⟩)) (some s) [env, env] 1 =
        ([env, env], .ok ("" ++ pyStr (l.get ⟨i, hlt⟩))) := rfl
    rw [h3, empty_append_str]
  · rw [dif_neg hlt, dif_neg hlt]

/-- C7 witness: the general part discharged at the concrete in-range index 2
and the concrete out-of-range index 5 over the three-element sequence. -/
theorem claim7_indexed_ref_witness :
    parseCall 6 [⟨.VAR, "..name::"⟩, ⟨.LB, "["⟩, ⟨.NUMBER, "2"⟩, ⟨.RB, "]"⟩]
        none [[(.str "name", .list [.int 10, .int 20, .int 30])],
              [(.str "name", .list [.int 10, .int 20, .int 30])]] 1 =
      ([[(.str "name", .list [.int 10, .int 20, .int 30])],
        [(.str "name", .list [.int 10, .int 20, .int 30])]], .ok "30") ∧
    parseCall 6 [⟨.VAR, "..name::"⟩, ⟨.LB, "["⟩, ⟨.NUMBER, "5"⟩, ⟨.RB, "]"⟩]
        none [[(.str "name", .list [.int 10, .int 20, .int 30])],
              [(.str "name", .list [.int 10, .int 20, .int 30])]] 1 =
      ([[(.str "name", .list [.int 10, .int 20, .int 30])],
        [(.str "name", .list [.int 10, .int 20, .int 30])]], .error .indexError) := by
  constructor
  · rw [claim7_indexed_ref.2 "2" 2 [.int 10, .int 20, .int 30]
      [(.str "name", .list [.int 10, .int 20, .int 30])] rfl rfl]
    rfl
  · rw [claim7_indexed_ref.2 "5" 5 [.int 10, .int 20, .int 30]
      [(.str "name", .list [.int 10, .int 20, .int 30])] rfl rfl]
    rfl

/-! ## Claim C8 -/

/-- C8: the source contradicts the specified graceful degradation — a bare
`..it::` with no active loop reads the unbound local `idx`, raising a
runtime error instead of emitting the marker text verbatim; and when a prior
indexed reference has bound `idx` in the same call, the stale index text is
emitted instead of the marker. -/
theorem claim8_bare_it_unbound :
    (evalTemplate "..it:: " []).2 = .error .unboundLocal ∧
    (evalTemplate "..a::[0] ..it:: " [(.str "a", .list [.int 9])]).2 = .ok "9 0 " :=
  ⟨rfl, rfl⟩

/-! ## Claim C9, amended part -/

/-- Appending the empty character list on the right is the identity. -/
theorem str_append_empty : ∀ s : String, s ++ (⟨[]⟩ : String) = s
  | ⟨l⟩ => congrArg String.mk (List.append_nil l)

/-- String append is associative. -/
theorem strAppendAssoc : ∀ a b c : String, (a ++ b) ++ c = a ++ (b ++ c)
  | ⟨x⟩, ⟨y⟩, ⟨z⟩ => congrArg String.mk (List.append_assoc x y z)

/-- The evaluator's `tokens[pos - 1]` read always finds a token while the
current position is in range (Python's negative indexing wraps to the last
token at position 0). -/
theorem pyGetTok_prev_some (ts : List Token) (pos : Nat) (h : pos < ts.length) :
    ∃ pv, pyGetTok ts ((pos : Int) - 1) = some pv := by
  unfold pyGetTok
  split_ifs with h1 h2
  · rw [show ((pos : Int) - 1).toNat = pos - 1 from by omega]
    rw [List.get?_eq_get (by omega)]
    exact ⟨_, rfl⟩
  · rw [show ((pos : Int) - 1 + ts.length).toNat = ts.length - 1 from by omega]
    rw [List.get?_eq_get (by omega)]
    exact ⟨_, rfl⟩
  · exfalso
    omega

/-- Over a token list consisting only of literal and whitespace kinds, with
no whitespace token after a newline token, the evaluator copies the raw
texts verbatim: it appends exactly the concatenated text of the tokens from
the current position. -/
theorem litRun : ∀ (fl : Nat) (ts : List Token) (it : Option Int) (pos : Nat)
    (res : String) (idxv : Option String) (st : Store) (ref : Nat),
    (ts.all fun t => litType t.type) = true →
    noWsAfterNL ts = true →
    ts.length - pos < fl →
    parseLoop fl ts it pos res idxv st ref =
      (st, .ok (res ++ (⟨tokensChars (ts.drop pos)⟩ : String))) := by
  intro fl
  induction fl with
  | zero =>
      intro ts it pos res idxv st ref hall hnws hfl
      exact absurd hfl (by omega)
  | succ fl ih =>
      intro ts it pos res idxv st ref hall hnws hfl
      simp only [parseLoop]
      rcases hget : ts.get? pos with _ | t
      · have hlen : ts.length ≤ pos := List.get?_eq_none.mp hget
        have hdrop : ts.drop pos = [] := List.drop_eq_nil_of_le hlen
        rw [hdrop]
        exact congrArg (fun r => ((st, Except.ok r) : Store × Except Err String))
          (str_append_empty res).symm
      · obtain ⟨hlt, hgetel⟩ := List.get?_eq_some.mp hget
        have hmem : t ∈ ts := List.get?_mem hget
        have hlit : litType t.type = true := List.all_eq_true.mp hall t hmem
        have hdrop : ts.drop pos = t :: ts.drop (pos + 1) := by
          rw [List.drop_eq_getElem_cons hlt]
          exact congrArg (fun x => x :: ts.drop (pos + 1)) hgetel
        have hfl2 : ts.length - (pos + 1) < fl := by omega
        rcases t with ⟨tt, tv⟩
        have hemit : parseLoop fl ts it (pos + 1) (res ++ tv) idxv st ref =
            (st, .ok (res ++ (⟨tokensChars (ts.drop pos)⟩ : String))) := by
          rw [ih ts it (pos + 1) (res ++ tv) idxv st ref hall hnws hfl2]
          rw [hdrop, tokensChars_cons]
          exact congrArg (fun r => ((st, Except.ok r) : Store × Except Err String))
            (strAppendAssoc res tv ⟨tokensChars (ts.drop (pos + 1))⟩)
        cases tt
        case COMMENT => simp [litType] at hlit
        case DEFINE => simp [litType] at hlit
        case FOR => simp [litType] at hlit
        case UNDEF => simp [litType] at hlit
        case IF => simp [litType] at hlit
        case IFNOT => simp [litType] at hlit
        case ELSE => simp [litType] at hlit
        case END => simp [litType] at hlit
        case VAR => simp [litType] at hlit
        case SPACE =>
          obtain ⟨pv, hpv⟩ := pyGetTok_prev_some ts pos hlt
          have hx := List.all_eq_true.mp hnws pos (List.mem_range.mpr hlt)
          rw [hget, hpv] at hx
          simp [wsType] at hx
          rw [hpv]
          show (if pv.type = TokType.NEWLINE then parseLoop fl ts it (pos + 1) res idxv st ref
                else parseLoop fl ts it (pos + 1) (res ++ tv) idxv st ref) = _
          rw [if_neg hx]
          exact hemit
        case NEWLINE =>
          obtain ⟨pv, hpv⟩ := pyGetTok_prev_some ts pos hlt
          have hx := List.all_eq_true.mp hnws pos (List.mem_range.mpr hlt)
          rw [hget, hpv] at hx
          simp [wsType] at hx
          rw [hpv]
          show (if pv.type = TokType.NEWLINE then parseLoop fl ts it (pos + 1) res idxv st ref
                else parseLoop fl ts it (pos + 1) (res ++ tv) idxv st ref) = _
          rw [if_neg hx]
          exact hemit
        all_goals exact hemit

/-- C9 (amended): for every buffer whose tokenization yields only literal or
whitespace tokens, with no whitespace token directly following a newline
token (including the wrap-around comparison at position 0), evaluation with
any environment returns the buffer unchanged — so such an output is a fixed
point of re-evaluation.  Marker-freeness alone is not enough, as the
counterexample shows. -/
theorem claim9_literal_idempotent (s : String) (ts : List Token) (env : PyDict)
    (htok : tokenizeStr s = .ok ts)
    (hall : (ts.all fun t => litType t.type) = true)
    (hnws : noWsAfterNL ts = true) :
    evalTemplate s env = ([env, env], .ok s) := by
  have htc : tokenizeChars s.data = .ok ts := by
    unfold tokenizeStr at htok
    rcases hx : tokenizeChars s.data with p | ts2
    · rw [hx] at htok
      cases htok
    · rw [hx] at htok
      simp only [Except.ok.injEq] at htok
      subst htok
      rfl
  have hcov : tokensChars ts = s.data := by
    have htc2 : tokGo (s.data.length + 1) s.data = .ok ts := htc
    rcases tokGoSpec (s.data.length + 1) s.data (by omega) with
      ⟨ts2, hok, _, htext⟩ | ⟨p, ts2, herr, _, _, _, _⟩
    · rw [htc2] at hok
      simp only [Except.ok.injEq] at hok
      subst hok
      exact htext
    · rw [htc2] at herr
      exact Except.noConfusion herr
  unfold evalTemplate
  rw [htok]
  show parseLoop (ts.length + 2) ts none 0 "" none [env, env] 1 = ([env, env], .ok s)
  rw [litRun (ts.length + 2) ts none 0 "" none [env, env] 1 hall hnws (by omega)]
  rw [List.drop_zero, hcov]
  exact congrArg (fun r => (([env, env], Except.ok r) : Store × Except Err String))
    (empty_append_str s)

/-- C9 witness: the amended idempotence discharged at the literal buffer
`ab` and the empty environment. -/
theorem claim9_literal_idempotent_witness :
    evalTemplate "ab" [] = ([[], []], .ok "ab") :=
  claim9_literal_idempotent "ab" [⟨.IDENTIFIER, "ab"⟩] [] rfl rfl rfl

/-! ## Claim C9, counterexample -/

/-- C9 counterexample: a successful evaluation whose output contains no
directive marker but is not a fixed point of re-evaluation — the output
`a\n b ` contains a space after a line break, which the second evaluation's
whitespace normalization removes, giving `a\nb `. -/
theorem claim9_counterexample :
    (evalTemplate "..x:: " [(.str "x", .str "a\n b")]).2 = .ok "a\n b " ∧
    hasMarker "a\n b ".data = false ∧
    (evalTemplate "a\n b " [(.str "x", .str "a\n b")]).2 = .ok "a\nb " ∧
    "a\nb " ≠ "a\n b " :=
  ⟨rfl, by decide, rfl, by decide⟩

/-! ## Claim C10, amended part -/

/-- C10 (amended): whenever the evaluator reaches a VAR token that is the
last token of a sequence of length greater than 3, the bracket lookahead
reads the token after the VAR without checking that one exists and the
evaluation crashes with the out-of-bounds access; in particular the buffer
`a b c ..x::` fails even with x defined, while the length-1 buffer `..x::`
succeeds for every environment. -/
theorem claim10_var_lookahead :
    (∀ (fl pos : Nat) (ts : List Token) (t : Token) (it : Option Int) (res : String)
        (idxv : Option String) (st : Store) (ref : Nat),
      ts.get? pos = some t → t.type = .VAR → pos + 1 = ts.length → ts.length > 3 →
      parseLoop (fl + 1) ts it pos res idxv st ref = (st, .error .indexError)) ∧
    (evalTemplate "a b c ..x::" [(.str "x", .int 1)]).2 = .error .indexError ∧
    ∀ env : PyDict, ((evalTemplate "..x::" env).2).isOk = true := by
  refine ⟨?_, rfl, fun env => rfl⟩
  intro fl pos ts t it res idxv st ref hget htype hpos hlen
  rcases t with ⟨tt, tv⟩
  obtain rfl : tt = TokType.VAR := htype
  have hnone : ts.get? (pos + 1) = none := List.get?_eq_none.mpr (by omega)
  simp only [parseLoop]
  rw [hnone, hget]
  simp only [if_pos hlen]

/-- C10 witness: the amended lookahead crash discharged at the concrete
token sequence of `a b c ..x::` with the VAR at its final position 6. -/
theorem claim10_var_lookahead_witness :
    parseLoop 5
      [⟨.IDENTIFIER, "a"⟩, ⟨.SPACE, " "⟩, ⟨.IDENTIFIER, "b"⟩, ⟨.SPACE, " "⟩,
       ⟨.IDENTIFIER, "c"⟩, ⟨.SPACE, " "⟩, ⟨.VAR, "..x::"⟩]
      none 6 "a b c " none [[], []] 1 = ([[], []], .error .indexError) :=
  claim10_var_lookahead.1 4 6
    [⟨.IDENTIFIER, "a"⟩, ⟨.SPACE, " "⟩, ⟨.IDENTIFIER, "b"⟩, ⟨.SPACE, " "⟩,
     ⟨.IDENTIFIER, "c"⟩, ⟨.SPACE, " "⟩, ⟨.VAR, "..x::"⟩]
    ⟨.VAR, "..x::"⟩ none "a b c " none [[], []] 1 rfl rfl rfl (by decide)

/-! ## Claim C10, counterexample -/

/-- C10 counterexample: a buffer whose token sequence has length 7 and ends
in a VAR, yet evaluates successfully — the define handler's final double
position bump skips the trailing VAR, so the bracket lookahead never runs. -/
theorem claim10_counterexample :
    tokenizeStr "..define:: x 5 ..y::" =
      .ok [⟨.DEFINE, "..define::"⟩, ⟨.SPACE, " "⟩, ⟨.IDENTIFIER, "x"⟩, ⟨.SPACE, " "⟩,
           ⟨.NUMBER, "5"⟩, ⟨.SPACE, " "⟩, ⟨.VAR, "..y::"⟩] ∧
    ([⟨.DEFINE, "..define::"⟩, ⟨.SPACE, " "⟩, ⟨.IDENTIFIER, "x"⟩, ⟨.SPACE, " "⟩,
      ⟨.NUMBER, "5"⟩, ⟨.SPACE, " "⟩, (⟨.VAR, "..y::"⟩ : Token)].length > 3 ∧
      (⟨.VAR, "..y::"⟩ : Token).type = .VAR) ∧
    (evalTemplate "..define:: x 5 ..y::" []).2 = .ok "" :=
  ⟨rfl, ⟨by decide, rfl⟩, rfl⟩

end Monaco
